import Mathlib

/-!
Verification of the gesture-driven holiday-tree animation engine.

The development shallowly embeds the engine's core logic:

* the per-frame hand-gesture classifier (`HandTracker.tsx`: curl counting,
  pinch detection, priority classification, EMA position smoothing),
* the mode state machine (`App.tsx`, `handleGestureUpdate`),
* the focus-target selection without replacement (`Scene3D.tsx`,
  `SceneContent`),
* the per-object, per-frame transform interpolation (`TreeElement.tsx`,
  `useFrame`), and
* the adaptive camera distance and focused-photo scale computations
  (`Scene3D.tsx` `AdaptiveCamera`, `TreeElement.tsx`).

Real-number quantities are modelled over ℚ.  Euclidean distances appear in
the source only inside order comparisons (`dist a < dist b`,
`dist < 0.06`); since the square root is strictly monotone on nonnegative
reals, those comparisons are embedded as the equivalent comparisons of
squared distances (with the threshold squared).  The JavaScript
floating-point values `Infinity`/`NaN`, which the camera computation can
produce on degenerate viewports, are modelled by the extended type `EF`.
-/

/-- Display modes of the scene (source: `types.ts`, `enum AppMode`).
`TREE` is the assembled-tree arrangement (the spec's ASSEMBLED). -/
inductive AppMode where
  | TREE
  | SCATTERED
  | FOCUSED
deriving DecidableEq, Repr

/-- Per-frame gesture report (source: `types.ts`, `HandGestureState`).
`pinchDistSq` carries the square of the source's `pinchDistance`; the
no-hand sentinel value 1 is its own square. -/
structure HandGestureState where
  isFist : Bool
  isOpen : Bool
  isPinching : Bool
  handPosX : ℚ
  handPosY : ℚ
  pinchDistSq : ℚ
deriving DecidableEq, Repr

/-- Priority classification of the three gesture flags
(`HandTracker.tsx` lines 401-419).  `isPinchGeo` is the source's
`pinchDist < 0.06` comparison, supplied as a Boolean.  The result triple
is `(isFist, isOpen, isPinching)`. -/
def classifyFlags (isPinchGeo : Bool) (curledCount : ℕ) : Bool × Bool × Bool :=
  if isPinchGeo ∧ curledCount < 3 then (false, false, true)
  else if 3 ≤ curledCount then (true, false, false)
  else if curledCount ≤ 1 then (false, true, false)
  else (false, false, false)

/-- The classifier output as a function of the (un-squared) pinch distance
and the curled-finger count: the source computes
`isPinchGeo = pinchDist < 0.06` (`HandTracker.tsx` line 399) and feeds it
to the priority classification. -/
def classifierOutput (pinchDist : ℚ) (curledCount : ℕ) : Bool × Bool × Bool :=
  classifyFlags (decide (pinchDist < 6/100)) curledCount

/-- Mode state machine (`App.tsx`, `handleGestureUpdate`, lines 386-405):
fist always assembles; pinch focuses unless currently assembled; open hand
always scatters; no recognised gesture holds the previous mode. -/
def modeTransition (s : HandGestureState) (prevMode : AppMode) : AppMode :=
  if s.isFist then AppMode.TREE
  else if s.isPinching then
    (if prevMode ≠ AppMode.TREE then AppMode.FOCUSED else prevMode)
  else if s.isOpen then AppMode.SCATTERED
  else prevMode

/-- Squared planar distance between landmarks `i` and `j`
(`HandTracker.tsx` `dist`, lines 379-383, squared). -/
def distSq (lm : Fin 21 → ℚ × ℚ) (i j : Fin 21) : ℚ :=
  ((lm i).1 - (lm j).1)^2 + ((lm i).2 - (lm j).2)^2

/-- A finger is curled when its tip is closer to the wrist (landmark 0)
than its proximal joint is (`HandTracker.tsx` `isCurled`, lines 386-388);
embedded via squared distances. -/
def fingerCurled (lm : Fin 21 → ℚ × ℚ) (tip pip : Fin 21) : Bool :=
  decide (distSq lm tip 0 < distSq lm pip 0)

/-- Number of curled fingers among index, middle, ring, pinky
(`HandTracker.tsx` lines 390-395). -/
def curledCountOf (lm : Fin 21 → ℚ × ℚ) : ℕ :=
  (List.filter id
    [fingerCurled lm 8 6, fingerCurled lm 12 10,
     fingerCurled lm 16 14, fingerCurled lm 20 18]).length

/-- Squared pinch threshold: the source's `0.06` squared. -/
def pinchThresholdSq : ℚ := 9/2500

/-- One step of the exponential moving average with the source's smoothing
factor 0.3 (`HandTracker.tsx` lines 370-372). -/
def emaStep (target prev : ℚ) : ℚ := prev + (target - prev) * (3/10)

/-- One invocation of the hand tracker's `onResults` callback
(`HandTracker.tsx` lines 354-439).  Input: an optional landmark frame
(21 planar points; the source's `z` coordinates are never read) and the
stored previous smoothed position.  Output: the reported
`HandGestureState` and the new stored position.  On a detected hand the
smoothed position is computed from landmark 9 (horizontal axis mirrored,
mapped to [-1,1]²) and stored; on no hand the report is the reset state
and the stored position is left untouched. -/
def handTrackerStep (frame : Option (Fin 21 → ℚ × ℚ)) (prev : ℚ × ℚ) :
    HandGestureState × (ℚ × ℚ) :=
  match frame with
  | some lm =>
    let palmX := 1 - (lm 9).1
    let palmY := (lm 9).2
    let targetX := (palmX - 1/2) * 2
    let targetY := (palmY - 1/2) * 2
    let smoothX := emaStep targetX prev.1
    let smoothY := emaStep targetY prev.2
    let pinchSq := distSq lm 4 8
    let flags := classifyFlags (decide (pinchSq < pinchThresholdSq)) (curledCountOf lm)
    (⟨flags.1, flags.2.1, flags.2.2, smoothX, smoothY, pinchSq⟩, (smoothX, smoothY))
  | none => (⟨false, false, false, 0, 0, 1⟩, prev)

/-- Iterated EMA against a constant target: the sequence of reported
positions over consecutive detected-hand frames. -/
def emaSeq (x0 target : ℚ) : ℕ → ℚ
  | 0 => x0
  | n+1 => emaStep target (emaSeq x0 target n)

/-- At most one of the three gesture flags is set (the data-model
invariant on `HandGestureState`). -/
def flagsExclusive (s : HandGestureState) : Prop :=
  ¬(s.isFist = true ∧ s.isOpen = true)
  ∧ ¬(s.isFist = true ∧ s.isPinching = true)
  ∧ ¬(s.isOpen = true ∧ s.isPinching = true)

instance (s : HandGestureState) : Decidable (flagsExclusive s) := by
  unfold flagsExclusive; infer_instance

/-- C2: the classifier's flags are mutually exclusive and follow the
priority order: `isPinching` iff pinch distance < 0.06 and
`curledCount < 3`; otherwise `isFist` iff `curledCount ≥ 3`; otherwise
`isOpen` iff `curledCount ≤ 1`; two curled fingers without a pinch yield
no flag; and `curledCount ≥ 3` with pinch distance ≥ 0.06 yields exactly
`isFist`. -/
theorem classifier_priority_flags (pd : ℚ) (cc : ℕ) :
    ((classifierOutput pd cc).2.2 = true ↔ (pd < 6/100 ∧ cc < 3))
    ∧ (¬(pd < 6/100 ∧ cc < 3) → ((classifierOutput pd cc).1 = true ↔ 3 ≤ cc))
    ∧ (¬(pd < 6/100 ∧ cc < 3) → ¬(3 ≤ cc) →
        ((classifierOutput pd cc).2.1 = true ↔ cc ≤ 1))
    ∧ (cc = 2 → ¬(pd < 6/100) →
        classifierOutput pd cc = (false, false, false))
    ∧ (¬((classifierOutput pd cc).1 = true ∧ (classifierOutput pd cc).2.1 = true)
      ∧ ¬((classifierOutput pd cc).1 = true ∧ (classifierOutput pd cc).2.2 = true)
      ∧ ¬((classifierOutput pd cc).2.1 = true ∧ (classifierOutput pd cc).2.2 = true))
    ∧ (3 ≤ cc → 6/100 ≤ pd →
        classifierOutput pd cc = (true, false, false)) := by
  unfold classifierOutput classifyFlags
  split_ifs with h1 h2 h3 <;> simp_all <;> omega

/-- C2 witness: a fist frame (four curled fingers, wide pinch) is
classified as exactly `isFist`. -/
theorem classifier_priority_flags_witness :
    3 ≤ 4 ∧ (6/100 : ℚ) ≤ 1 ∧ classifierOutput 1 4 = (true, false, false) :=
  ⟨by norm_num, by norm_num,
    (classifier_priority_flags 1 4).2.2.2.2.2 (by norm_num) (by norm_num)⟩

/-- C1: the mode state machine's transition table.  The classifier only
ever emits flag triples with at most one flag set, and for every such
gesture input: fist assembles from any mode; otherwise an open hand
scatters; a pinch focuses unless the previous mode is assembled, in which
case (and when no flag is set) the previous mode is held. -/
theorem mode_machine_transition_table :
    (∀ frame prev, flagsExclusive (handTrackerStep frame prev).1)
    ∧ ∀ (s : HandGestureState) (m : AppMode), flagsExclusive s →
        ((s.isFist = true → modeTransition s m = AppMode.TREE)
        ∧ (s.isFist = false → s.isOpen = true →
            modeTransition s m = AppMode.SCATTERED)
        ∧ (s.isPinching = true → m ≠ AppMode.TREE →
            modeTransition s m = AppMode.FOCUSED)
        ∧ (s.isPinching = true → m = AppMode.TREE → modeTransition s m = m)
        ∧ (s.isFist = false → s.isOpen = false → s.isPinching = false →
            modeTransition s m = m)) := by
  constructor
  · intro frame prev
    match frame with
    | none => simp [handTrackerStep, flagsExclusive]
    | some lm =>
      simp only [handTrackerStep, flagsExclusive, classifyFlags]
      split_ifs <;> simp
  · intro s m hex
    obtain ⟨hfo, hfp, hop⟩ := hex
    refine ⟨?_, ?_, ?_, ?_, ?_⟩
    · intro hf; simp [modeTransition, hf]
    · intro hf ho
      have hp : s.isPinching = false := by
        cases hP : s.isPinching
        · rfl
        · exact absurd ⟨ho, hP⟩ hop
      simp [modeTransition, hf, ho, hp]
    · intro hp hm
      have hf : s.isFist = false := by
        cases hF : s.isFist
        · rfl
        · exact absurd ⟨hF, hp⟩ hfp
      simp [modeTransition, hf, hp, hm]
    · intro hp hm
      have hf : s.isFist = false := by
        cases hF : s.isFist
        · rfl
        · exact absurd ⟨hF, hp⟩ hfp
      simp [modeTransition, hf, hp, hm]
    · intro hf ho hp
      simp [modeTransition, hf, ho, hp]

/-- C1 witness: a pure open-hand gesture moves the machine from FOCUSED to
SCATTERED. -/
theorem mode_machine_transition_table_witness :
    flagsExclusive ⟨false, true, false, 0, 0, 1⟩
    ∧ modeTransition ⟨false, true, false, 0, 0, 1⟩ AppMode.FOCUSED
        = AppMode.SCATTERED := by
  refine ⟨by decide, ?_⟩
  exact (mode_machine_transition_table.2 ⟨false, true, false, 0, 0, 1⟩
    AppMode.FOCUSED (by decide)).2.1 rfl rfl

/-- C7: a no-hand frame reports all flags false, pinch distance 1 and
position (0,0) while leaving the stored EMA accumulator untouched, so the
next detected-hand frame smooths from the pre-loss stored position. -/
theorem no_hand_frame_report :
    (∀ prev, handTrackerStep none prev = (⟨false, false, false, 0, 0, 1⟩, prev))
    ∧ ∀ (prev : ℚ × ℚ) (lm : Fin 21 → ℚ × ℚ),
        (handTrackerStep (some lm) ((handTrackerStep none prev).2)).1.handPosX
          = emaStep ((1 - (lm 9).1 - 1/2) * 2) prev.1
        ∧ (handTrackerStep (some lm) ((handTrackerStep none prev).2)).1.handPosY
          = emaStep (((lm 9).2 - 1/2) * 2) prev.2 :=
  ⟨fun _ => rfl, fun _ _ => ⟨rfl, rfl⟩⟩

/-- Error after one EMA step shrinks by the exact factor 0.7. -/
theorem emaStep_error (t p : ℚ) : t - emaStep t p = (t - p) * (7/10) := by
  unfold emaStep; ring

/-- EMA step stays on the near side of the target. -/
theorem emaStep_between (t p : ℚ) (h : p ≤ t) :
    p ≤ emaStep t p ∧ emaStep t p ≤ t := by
  unfold emaStep
  constructor <;> nlinarith

/-- C8: against a constant target, the EMA-reported position converges
monotonically toward the target without overshooting: each step multiplies
the error by exactly 7/10, and the sequence is monotone and bounded by the
target on whichever side it starts. -/
theorem ema_monotone_convergence (x0 t : ℚ) :
    (∀ n, |t - emaSeq x0 t (n+1)| = (7/10) * |t - emaSeq x0 t n|)
    ∧ (x0 ≤ t → ∀ n, emaSeq x0 t n ≤ emaSeq x0 t (n+1) ∧ emaSeq x0 t n ≤ t)
    ∧ (t ≤ x0 → ∀ n, emaSeq x0 t (n+1) ≤ emaSeq x0 t n ∧ t ≤ emaSeq x0 t n) := by
  refine ⟨?_, ?_, ?_⟩
  · intro n
    rw [show emaSeq x0 t (n+1) = emaStep t (emaSeq x0 t n) from rfl,
      emaStep_error, abs_mul, abs_of_nonneg (by norm_num : (0:ℚ) ≤ 7/10),
      mul_comm]
  · intro h0 n
    induction n with
    | zero => exact ⟨(emaStep_between t x0 h0).1, h0⟩
    | succ n ih =>
      have hb := emaStep_between t (emaSeq x0 t n) ih.2
      exact ⟨(emaStep_between t (emaSeq x0 t (n+1)) hb.2).1, hb.2⟩
  · intro h0 n
    induction n with
    | zero =>
      constructor
      · show emaStep t x0 ≤ x0
        unfold emaStep; nlinarith
      · exact h0
    | succ n ih =>
      have hlo : t ≤ emaSeq x0 t (n+1) := by
        show t ≤ emaStep t (emaSeq x0 t n)
        unfold emaStep; nlinarith [ih.2]
      constructor
      · show emaStep t (emaSeq x0 t (n+1)) ≤ emaSeq x0 t (n+1)
        unfold emaStep; nlinarith
      · exact hlo

/-- C8 witness: starting at 0 with target 1, the first step is monotone
and does not overshoot. -/
theorem ema_monotone_convergence_witness :
    (0:ℚ) ≤ 1 ∧ (emaSeq 0 1 0 ≤ emaSeq 0 1 1 ∧ emaSeq 0 1 0 ≤ 1) :=
  ⟨by norm_num, (ema_monotone_convergence 0 1).2.1 (by norm_num) 0⟩

/-- 3D vector over ℚ. -/
structure Vec3 where
  x : ℚ
  y : ℚ
  z : ℚ
deriving DecidableEq, Repr

/-- Scalar multiple (three.js `multiplyScalar`). -/
def Vec3.smul (v : Vec3) (c : ℚ) : Vec3 := ⟨v.x * c, v.y * c, v.z * c⟩

/-- Object kinds (source: `types.ts`, `TreeObjectData.type`). -/
inductive ObjType where
  | ball
  | gift
  | photo
  | candy
  | light
  | star
deriving DecidableEq, Repr

/-- Static per-object data (source: `types.ts`, `TreeObjectData`); ids are
modelled as naturals. -/
structure ObjData where
  id : ℕ
  ty : ObjType
  positionTree : Vec3
  positionScattered : Vec3
  rotationTree : Vec3
  rotationScattered : Vec3
  scale : ℚ
deriving DecidableEq, Repr

/-- Target position of an object for the current frame
(`TreeElement.tsx` lines 145-191).  `camFocusPos` is the parent-space
point computed from the camera for the held focus target (the
matrix-inverse computation of lines 164-169, supplied as a parameter). -/
def targetPosOf (d : ObjData) (mode : AppMode) (tid : Option ℕ)
    (camFocusPos : Vec3) : Vec3 :=
  let base := if mode = AppMode.TREE then d.positionTree else d.positionScattered
  let base := if d.ty = ObjType.star ∧ mode = AppMode.SCATTERED then ⟨0, 0, 0⟩ else base
  if mode = AppMode.FOCUSED ∧ d.ty = ObjType.photo then
    if some d.id = tid then camFocusPos
    else d.positionScattered.smul (3/2)
  else base

/-- Target Euler rotation for the current frame (`TreeElement.tsx`
line 146); never overridden on the Euler path. -/
def targetRotOf (d : ObjData) (mode : AppMode) : Vec3 :=
  if mode = AppMode.TREE then d.rotationTree else d.rotationScattered

/-- Target scale for the current frame (`TreeElement.tsx` lines 147,
178-190).  `camFocusScale` is the viewport-dependent scale of lines
180-185, supplied as a parameter. -/
def targetScaleOf (d : ObjData) (mode : AppMode) (tid : Option ℕ)
    (camFocusScale : ℚ) : ℚ :=
  if mode = AppMode.FOCUSED ∧ d.ty = ObjType.photo then
    if some d.id = tid then camFocusScale
    else d.scale * (4/5)
  else d.scale

/-- Quaternion over ℚ. -/
structure Quat where
  qw : ℚ
  qx : ℚ
  qy : ℚ
  qz : ℚ
deriving DecidableEq, Repr

/-- Quaternion dot product. -/
def Quat.dot (a b : Quat) : ℚ :=
  a.qw * b.qw + a.qx * b.qx + a.qy * b.qy + a.qz * b.qz

/-- Componentwise negation. -/
def Quat.neg (a : Quat) : Quat := ⟨-a.qw, -a.qx, -a.qy, -a.qz⟩

/-- three.js `Quaternion.slerp(qb, t)`: the early-return structure is
modelled exactly (t = 0, t = 1, hemisphere flip, and the
`cosHalfTheta >= 1` return of the receiver unchanged); the remaining
trigonometric tail (square roots, `atan2`, and the near-parallel linear
fallback), not representable over ℚ, is abstracted as the parameter
`rest`, and theorems below hold for every completion of it. -/
def slerp (rest : Quat → Quat → ℚ → Quat) (q qb : Quat) (t : ℚ) : Quat :=
  if t = 0 then q
  else if t = 1 then qb
  else
    let c := q.dot qb
    let qb2 := if c < 0 then qb.neg else qb
    let c2 := if c < 0 then -c else c
    if 1 ≤ c2 then q else rest q qb2 t

/-- Linear interpolation of one coordinate (three.js `lerp`). -/
def lerp1 (a b t : ℚ) : ℚ := a + (b - a) * t

/-- Componentwise vector lerp (three.js `Vector3.lerp`). -/
def Vec3.lerpV (a b : Vec3) (t : ℚ) : Vec3 :=
  ⟨lerp1 a.x b.x t, lerp1 a.y b.y t, lerp1 a.z b.z t⟩

/-- An object's live transform: position, Euler rotation, orientation
quaternion and scale (three.js keeps the Euler and quaternion views
synchronised; each frame branch below touches the representative the
source touches). -/
structure Transform where
  pos : Vec3
  rot : Vec3
  quat : Quat
  scl : Vec3
deriving DecidableEq, Repr

/-- One per-object frame of the transform interpolator
(`TreeElement.tsx` `useFrame`, lines 142-214): choose targets, lerp
position/rotation/scale (slerp the quaternion for the held focus photo)
at rate 0.12 for the focused item and 0.05 otherwise, then apply the idle
float (`bobTerm` stands for `Math.sin(elapsedTime + floatOffset) * 0.005`)
and the constant spin increment 0.002 to every non-star object that is
not the focus target while scattered or focused.  The mesh's parent
always exists (the objects live inside the scene group), so the
`useQuaternion` branch is taken for the held focus photo. -/
def elementFrame (rest : Quat → Quat → ℚ → Quat) (d : ObjData)
    (mode : AppMode) (tid : Option ℕ) (camFocusPos : Vec3)
    (camFocusQuat : Quat) (camFocusScale : ℚ) (bobTerm : ℚ)
    (cur : Transform) : Transform :=
  let targetPos := targetPosOf d mode tid camFocusPos
  let targetRot := targetRotOf d mode
  let targetScale := targetScaleOf d mode tid camFocusScale
  let useQuat := mode = AppMode.FOCUSED ∧ d.ty = ObjType.photo ∧ some d.id = tid
  let isFocusedItem := mode = AppMode.FOCUSED ∧ some d.id = tid
  let sp := if isFocusedItem then (12/100 : ℚ) else (5/100 : ℚ)
  let pos1 := cur.pos.lerpV targetPos sp
  let rot1 := if useQuat then cur.rot else cur.rot.lerpV targetRot sp
  let quat1 := if useQuat then slerp rest cur.quat camFocusQuat sp else cur.quat
  let scl1 := cur.scl.lerpV ⟨targetScale, targetScale, targetScale⟩ sp
  let idle := (mode = AppMode.SCATTERED ∨ mode = AppMode.FOCUSED)
              ∧ ¬(some d.id = tid) ∧ ¬(d.ty = ObjType.star)
  let pos2 := if idle then ⟨pos1.x, pos1.y + bobTerm, pos1.z⟩ else pos1
  let rot2 := if idle then ⟨rot1.x, rot1.y, rot1.z + 1/500⟩ else rot1
  ⟨pos2, rot2, quat1, scl1⟩

/-- C4 counterexample: a ball (non-photo) that is not the focus target,
in FOCUSED mode, keeps its plain scattered position and scale as targets;
they are not scaled by 1.5 and 0.8. -/
theorem focused_nontarget_scaling_cex :
    targetPosOf ⟨1, ObjType.ball, ⟨0, 0, 0⟩, ⟨1, 1, 1⟩, ⟨0, 0, 0⟩, ⟨0, 0, 0⟩, 1⟩
        AppMode.FOCUSED (some 99) ⟨0, 0, 0⟩
      ≠ Vec3.smul ⟨1, 1, 1⟩ (3/2)
    ∧ targetScaleOf ⟨1, ObjType.ball, ⟨0, 0, 0⟩, ⟨1, 1, 1⟩, ⟨0, 0, 0⟩, ⟨0, 0, 0⟩, 1⟩
        AppMode.FOCUSED (some 99) 1
      ≠ 1 * (4/5) := by
  constructor
  · intro h
    norm_num [targetPosOf, Vec3.smul, (by decide : ¬(ObjType.ball = ObjType.photo)),
      (by decide : ¬(ObjType.ball = ObjType.star)),
      (by decide : ¬(AppMode.FOCUSED = AppMode.TREE))] at h
  · intro h
    norm_num [targetScaleOf, (by decide : ¬(ObjType.ball = ObjType.photo))] at h

/-- C4 amended: for every PHOTO-kind object that is not the held focus
target, while mode is FOCUSED the target position is the scattered
position scaled by 1.5 and the target scale is the base scale times 0.8;
non-photo objects keep their plain scattered targets. -/
theorem focused_nontarget_photo_scaling (d : ObjData) (tid : Option ℕ)
    (camFocusPos : Vec3) (camFocusScale : ℚ)
    (hPhoto : d.ty = ObjType.photo) (hNotTarget : ¬(some d.id = tid)) :
    targetPosOf d AppMode.FOCUSED tid camFocusPos = d.positionScattered.smul (3/2)
    ∧ targetScaleOf d AppMode.FOCUSED tid camFocusScale = d.scale * (4/5)
    ∧ ∀ e : ObjData, e.ty ≠ ObjType.photo →
        targetPosOf e AppMode.FOCUSED tid camFocusPos = e.positionScattered
        ∧ targetScaleOf e AppMode.FOCUSED tid camFocusScale = e.scale := by
  refine ⟨?_, ?_, ?_⟩
  · simp [targetPosOf, hPhoto, hNotTarget]
  · simp [targetScaleOf, hPhoto, hNotTarget]
  · intro e hep
    constructor
    · simp [targetPosOf, hep,
        (by decide : ¬(AppMode.FOCUSED = AppMode.SCATTERED))]
    · simp [targetScaleOf, hep]

/-- C4 amended witness: a concrete non-target photo in FOCUSED mode. -/
theorem focused_nontarget_photo_scaling_witness :
    (ObjType.photo = ObjType.photo ∧ ¬(some 2 = (none : Option ℕ)))
    ∧ targetPosOf ⟨2, ObjType.photo, ⟨0, 0, 0⟩, ⟨2, 0, 4⟩, ⟨0, 0, 0⟩, ⟨0, 0, 0⟩, 3/2⟩
        AppMode.FOCUSED none ⟨0, 0, 0⟩
      = Vec3.smul ⟨2, 0, 4⟩ (3/2) :=
  ⟨⟨rfl, by decide⟩,
    (focused_nontarget_photo_scaling
      ⟨2, ObjType.photo, ⟨0, 0, 0⟩, ⟨2, 0, 4⟩, ⟨0, 0, 0⟩, ⟨0, 0, 0⟩, 3/2⟩
      none ⟨0, 0, 0⟩ 1 rfl (by decide)).1⟩

/-- Lerp of a coordinate onto itself is the identity. -/
theorem lerp1_self (a t : ℚ) : lerp1 a a t = a := by
  unfold lerp1; ring

/-- Vector lerp onto itself is the identity. -/
theorem lerpV_self (v : Vec3) (t : ℚ) : v.lerpV v t = v := by
  unfold Vec3.lerpV
  simp [lerp1_self]

/-- Slerp of a (unit-norm) quaternion onto itself returns it unchanged,
for every completion of the trigonometric tail: the source's
`cosHalfTheta >= 1` early return fires. -/
theorem slerp_self (rest : Quat → Quat → ℚ → Quat) (q : Quat) (t : ℚ)
    (hunit : 1 ≤ q.dot q) : slerp rest q q t = q := by
  have hnn : ¬(q.dot q < 0) := not_lt.2 (le_trans (by norm_num) hunit)
  simp [slerp, hnn, hunit]

/-- C6 counterexample: a ball in SCATTERED mode whose live transform
equals its target transform is still changed by the next frame: the idle
branch adds 0.002 to `rotation.z` (the bob term is taken as 0 here, so
the spin increment alone drives the change). -/
theorem steady_state_idle_motion_cex :
    (Transform.pos ⟨⟨2, 3, 4⟩, ⟨1, 1, 1⟩, ⟨1, 0, 0, 0⟩, ⟨1, 1, 1⟩⟩
        = targetPosOf ⟨1, ObjType.ball, ⟨0, 0, 0⟩, ⟨2, 3, 4⟩, ⟨0, 0, 0⟩, ⟨1, 1, 1⟩, 1⟩
            AppMode.SCATTERED none ⟨0, 0, 0⟩
      ∧ Transform.rot ⟨⟨2, 3, 4⟩, ⟨1, 1, 1⟩, ⟨1, 0, 0, 0⟩, ⟨1, 1, 1⟩⟩
        = targetRotOf ⟨1, ObjType.ball, ⟨0, 0, 0⟩, ⟨2, 3, 4⟩, ⟨0, 0, 0⟩, ⟨1, 1, 1⟩, 1⟩
            AppMode.SCATTERED
      ∧ Transform.scl ⟨⟨2, 3, 4⟩, ⟨1, 1, 1⟩, ⟨1, 0, 0, 0⟩, ⟨1, 1, 1⟩⟩
        = ⟨targetScaleOf ⟨1, ObjType.ball, ⟨0, 0, 0⟩, ⟨2, 3, 4⟩, ⟨0, 0, 0⟩, ⟨1, 1, 1⟩, 1⟩
              AppMode.SCATTERED none 1,
           targetScaleOf ⟨1, ObjType.ball, ⟨0, 0, 0⟩, ⟨2, 3, 4⟩, ⟨0, 0, 0⟩, ⟨1, 1, 1⟩, 1⟩
              AppMode.SCATTERED none 1,
           targetScaleOf ⟨1, ObjType.ball, ⟨0, 0, 0⟩, ⟨2, 3, 4⟩, ⟨0, 0, 0⟩, ⟨1, 1, 1⟩, 1⟩
              AppMode.SCATTERED none 1⟩)
    ∧ elementFrame (fun q _ _ => q)
        ⟨1, ObjType.ball, ⟨0, 0, 0⟩, ⟨2, 3, 4⟩, ⟨0, 0, 0⟩, ⟨1, 1, 1⟩, 1⟩
        AppMode.SCATTERED none ⟨0, 0, 0⟩ ⟨1, 0, 0, 0⟩ 1 0
        ⟨⟨2, 3, 4⟩, ⟨1, 1, 1⟩, ⟨1, 0, 0, 0⟩, ⟨1, 1, 1⟩⟩
      ≠ ⟨⟨2, 3, 4⟩, ⟨1, 1, 1⟩, ⟨1, 0, 0, 0⟩, ⟨1, 1, 1⟩⟩ := by
  have hne : ¬(ObjType.ball = ObjType.star) := by decide
  have hns : ¬(AppMode.SCATTERED = AppMode.TREE) := by decide
  have hnf : ¬(AppMode.SCATTERED = AppMode.FOCUSED) := by decide
  refine ⟨⟨?_, ?_, ?_⟩, ?_⟩
  · norm_num [targetPosOf, hne, hns, hnf, (by decide : ¬(ObjType.ball = ObjType.photo))]
  · norm_num [targetRotOf, hns]
  · norm_num [targetScaleOf, hnf, (by decide : ¬(ObjType.ball = ObjType.photo))]
  · intro h
    have hz := congrArg (fun tr => (Transform.rot tr).z) h
    norm_num [elementFrame, targetPosOf, targetRotOf, targetScaleOf,
      Vec3.lerpV, lerp1, hne, hns, hnf,
      (by decide : ¬(ObjType.ball = ObjType.photo)),
      (by decide : ¬(some 1 = (none : Option ℕ)))] at hz

/-- C6 amended: for every object-mode pair OUTSIDE the idle-motion branch
(mode ASSEMBLED, or the object is the star, or the object is the held
focus target), once the live transform equals the frame's target
transform, a further frame at the same target leaves it unchanged (the
held focus photo's orientation hypothesis requires its quaternion to be
the unit-norm camera-facing target).  Objects inside the idle branch
receive the additive bob and the 0.002 spin increment instead. -/
theorem steady_state_idempotent_no_idle (rest : Quat → Quat → ℚ → Quat)
    (d : ObjData) (mode : AppMode) (tid : Option ℕ) (camFocusPos : Vec3)
    (camFocusQuat : Quat) (camFocusScale : ℚ) (bobTerm : ℚ) (cur : Transform)
    (hNoIdle : mode = AppMode.TREE ∨ some d.id = tid ∨ d.ty = ObjType.star)
    (hPos : cur.pos = targetPosOf d mode tid camFocusPos)
    (hRot : ¬(mode = AppMode.FOCUSED ∧ d.ty = ObjType.photo ∧ some d.id = tid) →
      cur.rot = targetRotOf d mode)
    (hQuat : (mode = AppMode.FOCUSED ∧ d.ty = ObjType.photo ∧ some d.id = tid) →
      cur.quat = camFocusQuat ∧ 1 ≤ cur.quat.dot cur.quat)
    (hScl : cur.scl = ⟨targetScaleOf d mode tid camFocusScale,
                       targetScaleOf d mode tid camFocusScale,
                       targetScaleOf d mode tid camFocusScale⟩) :
    elementFrame rest d mode tid camFocusPos camFocusQuat camFocusScale bobTerm cur
      = cur := by
  have hIdleFalse :
      ¬((mode = AppMode.SCATTERED ∨ mode = AppMode.FOCUSED)
        ∧ ¬(some d.id = tid) ∧ ¬(d.ty = ObjType.star)) := by
    rcases hNoIdle with h | h | h
    · rintro ⟨hm | hm, -, -⟩ <;> rw [h] at hm <;> exact AppMode.noConfusion hm
    · rintro ⟨-, hnt, -⟩; exact hnt h
    · rintro ⟨-, -, hns⟩; exact hns h
  obtain ⟨p, r, q, s⟩ := cur
  unfold elementFrame
  by_cases hq : mode = AppMode.FOCUSED ∧ d.ty = ObjType.photo ∧ some d.id = tid
  · obtain ⟨hcq, hunit⟩ := hQuat hq
    obtain ⟨hm, hty, hti⟩ := hq
    subst hm
    simp [hIdleFalse, hty, hti, ← hPos, ← hcq, ← hScl, lerpV_self, slerp_self,
      hunit]
  · have hr := hRot hq
    simp [hIdleFalse, hq, ← hPos, ← hr, ← hScl, lerpV_self]

/-- C6 amended witness: the star in SCATTERED mode at its steady state
(origin anchor) is left unchanged by a frame. -/
theorem steady_state_idempotent_no_idle_witness :
    elementFrame (fun q _ _ => q)
      ⟨0, ObjType.star, ⟨0, 13/2, 0⟩, ⟨0, 0, 0⟩, ⟨0, 0, 0⟩, ⟨0, 0, 0⟩, 5/2⟩
      AppMode.SCATTERED none ⟨0, 0, 0⟩ ⟨1, 0, 0, 0⟩ 1 (1/200)
      ⟨⟨0, 0, 0⟩, ⟨0, 0, 0⟩, ⟨1, 0, 0, 0⟩, ⟨5/2, 5/2, 5/2⟩⟩
      = ⟨⟨0, 0, 0⟩, ⟨0, 0, 0⟩, ⟨1, 0, 0, 0⟩, ⟨5/2, 5/2, 5/2⟩⟩ := by
  apply steady_state_idempotent_no_idle
  · exact Or.inr (Or.inr rfl)
  · norm_num [targetPosOf, (by decide : ¬(ObjType.star = ObjType.photo)),
      (by decide : ¬(AppMode.SCATTERED = AppMode.TREE)),
      (by decide : ¬(AppMode.SCATTERED = AppMode.FOCUSED))]
  · intro
    norm_num [targetRotOf, (by decide : ¬(AppMode.SCATTERED = AppMode.TREE))]
  · rintro ⟨hm, -⟩
    exact absurd hm (by decide)
  · norm_num [targetScaleOf, (by decide : ¬(AppMode.SCATTERED = AppMode.FOCUSED))]

/-- Extended value type modelling the JavaScript numbers produced by the
camera computations: a finite rational, positive infinity, or NaN.  All
quantities fed into these computations (viewport sizes, the tangent of
half the field-of-view, the fixed constants) are nonnegative, so a single
infinity suffices; the operations below implement the JavaScript
semantics on that nonnegative domain. -/
inductive EF where
  | fin : ℚ → EF
  | inf : EF
  | nan : EF
deriving DecidableEq, Repr

/-- JavaScript multiplication on the nonnegative extended domain:
`0 * Infinity = NaN`, `x * Infinity = Infinity` for `x > 0`. -/
def EF.mul : EF → EF → EF
  | .fin a, .fin b => .fin (a * b)
  | .fin a, .inf => if a = 0 then .nan else .inf
  | .inf, .fin b => if b = 0 then .nan else .inf
  | .inf, .inf => .inf
  | _, _ => .nan

/-- JavaScript division on the nonnegative extended domain:
`x / 0 = Infinity` for `x > 0`, `0 / 0 = NaN`, `x / Infinity = 0`,
`Infinity / x = Infinity`, `Infinity / Infinity = NaN`. -/
def EF.div : EF → EF → EF
  | .fin a, .fin b => if b = 0 then (if a = 0 then .nan else .inf) else .fin (a / b)
  | .fin _, .inf => .fin 0
  | .inf, .fin _ => .inf
  | _, _ => .nan

/-- JavaScript `Math.max` on two extended values (NaN propagates). -/
def EF.max2 : EF → EF → EF
  | .nan, _ => .nan
  | _, .nan => .nan
  | .inf, _ => .inf
  | _, .inf => .inf
  | .fin a, .fin b => .fin (max a b)

/-- JavaScript `Math.min` on two extended values (NaN propagates). -/
def EF.min2 : EF → EF → EF
  | .nan, _ => .nan
  | _, .nan => .nan
  | .inf, b => b
  | a, .inf => a
  | .fin a, .fin b => .fin (min a b)

/-- Whether an extended value is a finite number. -/
def EF.isFinite : EF → Bool
  | .fin _ => true
  | _ => false

/-- The camera distance recomputed by the `AdaptiveCamera` effect
(`Scene3D.tsx` lines 25-40): the larger of the distance fitting the fixed
target height 18 and the distance fitting the fixed target width 14 given
the current aspect ratio, clamped below by 20.  `tanHalfFov` stands for
`Math.tan(fovRad / 2)`. -/
def adaptiveCameraDist (tanHalfFov : EF) (width height : ℚ) : EF :=
  let aspect := EF.div (EF.fin width) (EF.fin height)
  let distVertical := EF.div (EF.fin 18) (EF.mul (EF.fin 2) tanHalfFov)
  let distHorizontal :=
    EF.div (EF.fin 14) (EF.mul (EF.mul (EF.fin 2) tanHalfFov) aspect)
  EF.max2 (EF.max2 distVertical distHorizontal) (EF.fin 20)

/-- The full `AdaptiveCamera` effect body (`Scene3D.tsx` lines 20-46):
the recomputed distance is assigned to `camera.position.z`
unconditionally; the previous distance is never consulted. -/
def adaptiveCameraUpdate (_prevZ : EF) (tanHalfFov : EF)
    (width height : ℚ) : EF :=
  adaptiveCameraDist tanHalfFov width height

/-- The focused photo's adaptive scale (`TreeElement.tsx` lines 178-185):
85% of the smaller of the visible height and width at standoff distance 4. -/
def focusScaleOf (tanHalfFov : EF) (width height : ℚ) : EF :=
  let visibleHeight := EF.mul (EF.mul (EF.fin 2) tanHalfFov) (EF.fin 4)
  let visibleWidth := EF.mul visibleHeight (EF.div (EF.fin width) (EF.fin height))
  EF.mul (EF.min2 visibleHeight visibleWidth) (EF.fin (17/20))

/-- C5 counterexample: with viewport width 0 (an input the claim says is
rejected), the recomputation produces a non-finite (+infinity) camera
distance and assigns it, rather than retaining the previous value 25. -/
theorem adaptive_camera_zero_width_cex :
    (adaptiveCameraUpdate (EF.fin 25) (EF.fin (1/2)) 0 1).isFinite = false
    ∧ adaptiveCameraUpdate (EF.fin 25) (EF.fin (1/2)) 0 1 ≠ EF.fin 25 := by
  have h : adaptiveCameraUpdate (EF.fin 25) (EF.fin (1/2)) 0 1 = EF.inf := by
    norm_num [adaptiveCameraUpdate, adaptiveCameraDist, EF.div, EF.mul, EF.max2]
  rw [h]
  exact ⟨rfl, by intro hc; exact EF.noConfusion hc⟩

/-- C5 amended: the source performs no rejection and never retains the
previous state: the distance is recomputed and assigned unconditionally
(it does not depend on the previous value); width 0 or field-of-view 0
(zero half-angle tangent) with a positive viewport height produces an
infinite distance, which propagates to the camera; height 0 alone yields
an infinite aspect and a finite recomputed distance governed by the
height constraint only; the focused-photo scale at width 0 or
field-of-view 0 is recomputed as the finite but degenerate value 0. -/
theorem adaptive_camera_degenerate_behavior :
    (∀ p1 p2 t : EF, ∀ w h : ℚ,
      adaptiveCameraUpdate p1 t w h = adaptiveCameraUpdate p2 t w h)
    ∧ (∀ t h : ℚ, 0 < t → 0 < h →
        adaptiveCameraDist (EF.fin t) 0 h = EF.inf)
    ∧ (∀ w h : ℚ, 0 < h → adaptiveCameraDist (EF.fin 0) w h = EF.inf)
    ∧ (∀ t w : ℚ, 0 < t → 0 < w →
        adaptiveCameraDist (EF.fin t) w 0
          = EF.fin (max (max (18/(2*t)) 0) 20))
    ∧ (∀ t h : ℚ, 0 ≤ t → 0 < h → focusScaleOf (EF.fin t) 0 h = EF.fin 0)
    ∧ (∀ w h : ℚ, 0 < h → focusScaleOf (EF.fin 0) w h = EF.fin 0) := by
  refine ⟨fun _ _ _ _ _ => rfl, ?_, ?_, ?_, ?_, ?_⟩
  · intro t h ht hh
    norm_num [adaptiveCameraDist, EF.div, EF.mul, EF.max2, hh.ne', ht.ne']
  · intro w h hh
    norm_num [adaptiveCameraDist, EF.div, EF.mul, EF.max2, hh.ne']
  · intro t w ht hw
    have h2t : (2:ℚ) * t ≠ 0 := by positivity
    norm_num [adaptiveCameraDist, EF.div, EF.mul, EF.max2, ht.ne', hw.ne', h2t]
  · intro t h ht hh
    rcases eq_or_lt_of_le ht with ht0 | ht0
    · norm_num [focusScaleOf, EF.div, EF.mul, EF.min2, hh.ne', ← ht0]
    · norm_num [focusScaleOf, EF.div, EF.mul, EF.min2, hh.ne', ht0.ne',
        min_eq_right (by positivity : (0:ℚ) ≤ 2 * t * 4)]
  · intro w h hh
    norm_num [focusScaleOf, EF.div, EF.mul, EF.min2, hh.ne']

/-- C5 amended witness: a concrete zero-width viewport yields an infinite
recomputed distance. -/
theorem adaptive_camera_degenerate_behavior_witness :
    (0:ℚ) < 1/2 ∧ (0:ℚ) < 1
    ∧ adaptiveCameraDist (EF.fin (1/2)) 0 1 = EF.inf :=
  ⟨by norm_num, by norm_num,
    adaptive_camera_degenerate_behavior.2.1 (1/2) 1 (by norm_num) (by norm_num)⟩

/-- C9: for positive half-angle tangent and positive viewport dimensions,
the recomputed camera distance is the maximum of the height-fitting
distance, the width-fitting distance and the floor 20; that maximum is
antitone in the tangent of half the field-of-view; and on (0, π) the
tangent of half the angle is monotone in the angle, so a smaller
field-of-view yields a camera distance at least as large. -/
theorem camera_distance_max_monotone :
    (∀ t w h : ℚ, 0 < t → 0 < w → 0 < h →
      adaptiveCameraDist (EF.fin t) w h
        = EF.fin (max (max (18/(2*t)) (14/(2*t*(w/h)))) 20))
    ∧ (∀ t1 t2 a : ℚ, 0 < t1 → t1 ≤ t2 → 0 < a →
        max (max (18/(2*t2)) (14/(2*t2*a))) 20
          ≤ max (max (18/(2*t1)) (14/(2*t1*a))) 20)
    ∧ (∀ f1 f2 : ℝ, 0 < f1 → f1 ≤ f2 → f2 < Real.pi →
        Real.tan (f1/2) ≤ Real.tan (f2/2)) := by
  refine ⟨?_, ?_, ?_⟩
  · intro t w h ht hw hh
    have hwh : w / h ≠ 0 := by positivity
    have h2t : (2:ℚ) * t ≠ 0 := by positivity
    have h2twh : (2:ℚ) * t * (w/h) ≠ 0 := by positivity
    norm_num [adaptiveCameraDist, EF.div, EF.mul, EF.max2, hh.ne', h2t, hwh,
      h2twh]
  · intro t1 t2 a h1 h12 ha
    have h18 : (18:ℚ)/(2*t2) ≤ 18/(2*t1) := by
      gcongr
    have h14 : (14:ℚ)/(2*t2*a) ≤ 14/(2*t1*a) := by
      gcongr
    exact max_le_max (max_le_max h18 h14) le_rfl
  · intro f1 f2 h1 h12 h2
    have hpi := Real.pi_pos
    have hm1 : f1/2 ∈ Set.Ioo (-(Real.pi/2)) (Real.pi/2) :=
      ⟨by linarith, by linarith⟩
    have hm2 : f2/2 ∈ Set.Ioo (-(Real.pi/2)) (Real.pi/2) :=
      ⟨by linarith, by linarith⟩
    exact Real.strictMonoOn_tan.monotoneOn hm1 hm2 (by linarith)

/-- C9 witness: halving the tangent of half the field-of-view (narrowing
the field-of-view) does not decrease the camera distance. -/
theorem camera_distance_max_monotone_witness :
    (0:ℚ) < 1/2 ∧ (1/2:ℚ) ≤ 1 ∧ (0:ℚ) < 2
    ∧ max (max (18/(2*1)) (14/(2*1*2))) 20
        ≤ max (max ((18:ℚ)/(2*(1/2))) (14/(2*(1/2)*2))) 20 :=
  ⟨by norm_num, by norm_num, by norm_num,
    camera_distance_max_monotone.2.1 (1/2) 1 2 (by norm_num) (by norm_num)
      (by norm_num)⟩

/-- `candidates[Math.floor(Math.random() * candidates.length)]`
(`Scene3D.tsx` line 85): the random draw is modelled by an arbitrary
natural `k` reduced modulo the list length, so every index is reachable. -/
def pickFrom (l : List ℕ) (k : ℕ) : ℕ := l.getD (k % l.length) 0

/-- The focus-target selection performed on entering FOCUSED with no held
target (`Scene3D.tsx` lines 72-94): photo ids not yet viewed are the
candidates; if all have been viewed the pool resets (and the chosen id is
re-added to the fresh history); the chosen id is recorded in the viewed
set.  Returns `none` when there are no photos. -/
def focusSelect (photoIds : List ℕ) (viewed : Finset ℕ) (k : ℕ) :
    Option (ℕ × Finset ℕ) :=
  if 0 < photoIds.length then
    let candidates := photoIds.filter (fun p => decide (p ∉ viewed))
    if candidates.length = 0 then
      let chosen := pickFrom photoIds k
      some (chosen, {chosen})
    else
      let chosen := pickFrom candidates k
      some (chosen, insert chosen viewed)
  else none

/-- Mode-machine focus state: the viewed-photo history and the held
focus-target id (`Scene3D.tsx` lines 56-59). -/
structure FocusState where
  viewed : Finset ℕ
  target : Option ℕ
deriving DecidableEq

/-- One run of the focus-selection effect (`Scene3D.tsx` lines 68-102):
in FOCUSED mode a held target is kept and an absent target is selected
(when photos exist); in any other mode the held target is cleared and the
viewed history kept. -/
def focusStep (photoIds : List ℕ) (mode : AppMode) (k : ℕ)
    (s : FocusState) : FocusState :=
  if mode = AppMode.FOCUSED then
    match s.target with
    | some _ => s
    | none =>
      match focusSelect photoIds s.viewed k with
      | none => s
      | some (c, v) => ⟨v, some c⟩
  else ⟨s.viewed, none⟩

/-- The ids chosen by repeated FOCUSED entries (each followed by a mode
exit clearing the target), one entry per draw in `ks`. -/
def runFocus (photoIds : List ℕ) : List ℕ → Finset ℕ → List ℕ
  | [], _ => []
  | k :: ks, viewed =>
    match focusSelect photoIds viewed k with
    | none => runFocus photoIds ks viewed
    | some (c, v) => c :: runFocus photoIds ks v

/-- The modelled random draw always lands in the list. -/
theorem pickFrom_mem (l : List ℕ) (k : ℕ) (h : l ≠ []) : pickFrom l k ∈ l := by
  have hl : 0 < l.length := List.length_pos.2 h
  have hk : k % l.length < l.length := Nat.mod_lt _ hl
  rw [pickFrom, List.getD_eq_get _ _ hk]
  exact List.get_mem _ _ _

/-- While an unviewed photo remains, selection picks an unviewed photo and
inserts it into the history. -/
theorem focusSelect_progress (photoIds : List ℕ) (viewed : Finset ℕ) (k : ℕ)
    (hex : ∃ p ∈ photoIds, p ∉ viewed) :
    ∃ c, focusSelect photoIds viewed k = some (c, insert c viewed)
      ∧ c ∈ photoIds ∧ c ∉ viewed := by
  obtain ⟨p, hp, hpv⟩ := hex
  have hne : photoIds ≠ [] := by rintro rfl; cases hp
  have hmemf : p ∈ photoIds.filter (fun q => decide (q ∉ viewed)) :=
    List.mem_filter.2 ⟨hp, by simpa using hpv⟩
  have hcanne : photoIds.filter (fun q => decide (q ∉ viewed)) ≠ [] := by
    intro hempty
    rw [hempty] at hmemf
    cases hmemf
  have hpm := pickFrom_mem _ k hcanne
  refine ⟨pickFrom (photoIds.filter (fun q => decide (q ∉ viewed))) k, ?_, ?_, ?_⟩
  · rw [focusSelect, if_pos (List.length_pos.2 hne),
      if_neg (fun hz => hcanne (List.length_eq_zero.1 hz))]
  · exact (List.mem_filter.1 hpm).1
  · simpa using (List.mem_filter.1 hpm).2

/-- Invariant for repeated selections: before the pool is exhausted the
chosen ids are distinct and avoid the current history. -/
theorem runFocus_nodup_aux (photoIds : List ℕ) (hnd : photoIds.Nodup) :
    ∀ (ks : List ℕ) (viewed : Finset ℕ), viewed ⊆ photoIds.toFinset →
      ks.length + viewed.card ≤ photoIds.length →
      (runFocus photoIds ks viewed).Nodup
      ∧ ∀ c ∈ runFocus photoIds ks viewed, c ∉ viewed := by
  intro ks
  induction ks with
  | nil =>
    intro viewed _ _
    exact ⟨List.nodup_nil, by intro c hc; cases hc⟩
  | cons k ks ih =>
    intro viewed hsub hcard
    have hlt : viewed.card < photoIds.length := by
      have := hcard
      simp only [List.length_cons] at this
      omega
    have hex : ∃ p ∈ photoIds, p ∉ viewed := by
      by_contra hc
      push_neg at hc
      have hsub2 : photoIds.toFinset ⊆ viewed := by
        intro q hq
        exact hc q (List.mem_toFinset.1 hq)
      have hcardle := Finset.card_le_card hsub2
      rw [List.toFinset_card_of_nodup hnd] at hcardle
      omega
    obtain ⟨c, hsel, hcm, hcv⟩ := focusSelect_progress photoIds viewed k hex
    have hsub3 : insert c viewed ⊆ photoIds.toFinset := by
      intro q hq
      rcases Finset.mem_insert.1 hq with rfl | hq2
      · exact List.mem_toFinset.2 hcm
      · exact hsub hq2
    have hcard3 : ks.length + (insert c viewed).card ≤ photoIds.length := by
      rw [Finset.card_insert_of_not_mem hcv]
      simp only [List.length_cons] at hcard
      omega
    obtain ⟨hnd2, hfresh⟩ := ih (insert c viewed) hsub3 hcard3
    rw [runFocus, hsel]
    constructor
    · refine List.Nodup.cons ?_ hnd2
      intro hcin
      exact hfresh c hcin (Finset.mem_insert_self c viewed)
    · intro q hq
      rcases List.mem_cons.1 hq with rfl | hq2
      · exact hcv
      · intro hqv
        exact hfresh q hq2 (Finset.mem_insert_of_mem hqv)

/-- C3: focus selection without replacement.  On entering FOCUSED with no
held target: (1) while an unviewed photo remains, an unviewed photo id is
chosen and recorded; (2) when every photo has been viewed, the history is
reset to exactly the newly chosen id (reset-with-inclusion); (3) every
currently unviewed photo is reachable by some random draw; (4) starting
from an empty history, no id repeats within the first `|photos|` entries;
(5) a held target is kept unchanged while FOCUSED; (6) leaving FOCUSED
clears the target (and only the target). -/
theorem focus_selection_no_repeat (photoIds : List ℕ) (hnd : photoIds.Nodup) :
    (∀ (viewed : Finset ℕ) (k : ℕ), (∃ p ∈ photoIds, p ∉ viewed) →
      ∃ c, focusSelect photoIds viewed k = some (c, insert c viewed)
        ∧ c ∈ photoIds ∧ c ∉ viewed)
    ∧ (∀ (viewed : Finset ℕ) (k : ℕ), photoIds ≠ [] →
        (∀ p ∈ photoIds, p ∈ viewed) →
        ∃ c, focusSelect photoIds viewed k = some (c, {c}) ∧ c ∈ photoIds)
    ∧ (∀ (viewed : Finset ℕ), ∀ c ∈ photoIds, c ∉ viewed →
        ∃ k, focusSelect photoIds viewed k = some (c, insert c viewed))
    ∧ (∀ ks : List ℕ, ks.length ≤ photoIds.length →
        (runFocus photoIds ks ∅).Nodup)
    ∧ (∀ (k : ℕ) (s : FocusState) (c : ℕ), s.target = some c →
        focusStep photoIds AppMode.FOCUSED k s = s)
    ∧ (∀ (m : AppMode) (k : ℕ) (s : FocusState), m ≠ AppMode.FOCUSED →
        (focusStep photoIds m k s).target = none
        ∧ (focusStep photoIds m k s).viewed = s.viewed) := by
  refine ⟨focusSelect_progress photoIds, ?_, ?_, ?_, ?_, ?_⟩
  · intro viewed k hne hall
    have hcand : photoIds.filter (fun q => decide (q ∉ viewed)) = [] := by
      rw [List.filter_eq_nil]
      intro q hq
      simpa using hall q hq
    refine ⟨pickFrom photoIds k, ?_, pickFrom_mem _ k hne⟩
    rw [focusSelect, if_pos (List.length_pos.2 hne)]
    rw [show photoIds.filter (fun q => decide (q ∉ viewed)) = [] from hcand]
    rfl
  · intro viewed c hcm hcv
    have hmemf : c ∈ photoIds.filter (fun q => decide (q ∉ viewed)) :=
      List.mem_filter.2 ⟨hcm, by simpa using hcv⟩
    obtain ⟨i, hi⟩ := List.mem_iff_get.1 hmemf
    refine ⟨i.1, ?_⟩
    have hne : photoIds ≠ [] := by rintro rfl; cases hcm
    have hcanne : photoIds.filter (fun q => decide (q ∉ viewed)) ≠ [] := by
      intro hempty
      rw [hempty] at hmemf
      cases hmemf
    rw [focusSelect, if_pos (List.length_pos.2 hne),
      if_neg (fun hz => hcanne (List.length_eq_zero.1 hz))]
    have hmod : i.1 % (photoIds.filter (fun q => decide (q ∉ viewed))).length
        = i.1 := Nat.mod_eq_of_lt i.2
    rw [pickFrom, hmod, List.getD_eq_get _ _ i.2]
    rw [show (photoIds.filter (fun q => decide (q ∉ viewed))).get ⟨i.1, i.2⟩
        = c from hi]
  · intro ks hks
    exact (runFocus_nodup_aux photoIds hnd ks ∅
      (Finset.empty_subset _) (by simpa using hks)).1
  · intro k s c htgt
    rw [focusStep, if_pos rfl, htgt]
  · intro m k s hm
    rw [focusStep, if_neg hm]
    exact ⟨rfl, rfl⟩

/-- C3 witness: with photos {0,1,2} and three arbitrary draws, the three
selections from an empty history are pairwise distinct. -/
theorem focus_selection_no_repeat_witness :
    ([0, 1, 2] : List ℕ).Nodup
    ∧ ([5, 6, 7] : List ℕ).length ≤ ([0, 1, 2] : List ℕ).length
    ∧ (runFocus [0, 1, 2] [5, 6, 7] ∅).Nodup :=
  ⟨by decide, by decide,
    (focus_selection_no_repeat [0, 1, 2] (by decide)).2.2.2.1 [5, 6, 7]
      (by decide)⟩

/-- The scene-level state shared by the photo-regeneration effect and the
focus-selection effect (`Scene3D.tsx` lines 52-66): the photo-kind object
ids of the current generation, the viewed history and the held target. -/
structure SceneState where
  photoIds : List ℕ
  viewed : Finset ℕ
  target : Option ℕ
deriving DecidableEq

/-- The photo-set-change effect (`Scene3D.tsx` lines 61-66): all objects
are regenerated (fresh ids) and the viewed history is cleared; the held
target is not touched. -/
def regeneratePhotos (newIds : List ℕ) (s : SceneState) : SceneState :=
  ⟨newIds, ∅, s.target⟩

/-- One run of the focus-selection effect at the scene level. -/
def sceneModeUpdate (m : AppMode) (k : ℕ) (s : SceneState) : SceneState :=
  let f := focusStep s.photoIds m k ⟨s.viewed, s.target⟩
  ⟨s.photoIds, f.viewed, f.target⟩

/-- A FOCUSED-mode update with no held target installs the selected id. -/
theorem focusStep_select (photoIds : List ℕ) (k : ℕ) (viewed : Finset ℕ)
    (c : ℕ) (v : Finset ℕ)
    (hsel : focusSelect photoIds viewed k = some (c, v)) :
    focusStep photoIds AppMode.FOCUSED k ⟨viewed, none⟩ = ⟨v, some c⟩ := by
  simp [focusStep, hsel]

/-- A held target survives any number of FOCUSED-mode updates. -/
theorem sceneHoldFocus (ks : List ℕ) :
    ∀ (st : SceneState) (i : ℕ), st.target = some i →
      (ks.foldl (fun acc k => sceneModeUpdate AppMode.FOCUSED k acc) st).target
        = some i := by
  induction ks with
  | nil =>
    intro st i h
    simpa using h
  | cons k ks ih =>
    intro st i h
    have hstep : sceneModeUpdate AppMode.FOCUSED k st = st := by
      obtain ⟨pids, vw, tg⟩ := st
      simp only at h
      subst h
      rfl
    rw [List.foldl_cons, hstep]
    exact ih st i h

/-- C10: when the photo list changes while FOCUSED with a held target,
regeneration replaces the photo ids and clears the viewed history but
leaves the held target untouched; the stale target matches no object of
the new generation; no replacement is selected by any number of further
FOCUSED updates; leaving FOCUSED clears the target; and the next FOCUSED
entry after an exit selects a target from the new generation. -/
theorem photo_regeneration_stale_target (s : SceneState) (newIds : List ℕ)
    (i : ℕ) (hTarget : s.target = some i) (hFresh : i ∉ newIds) :
    (regeneratePhotos newIds s).viewed = ∅
    ∧ (regeneratePhotos newIds s).photoIds = newIds
    ∧ (regeneratePhotos newIds s).target = some i
    ∧ (∀ j ∈ (regeneratePhotos newIds s).photoIds,
        (regeneratePhotos newIds s).target ≠ some j)
    ∧ (∀ ks : List ℕ,
        (ks.foldl (fun acc k => sceneModeUpdate AppMode.FOCUSED k acc)
          (regeneratePhotos newIds s)).target = some i)
    ∧ (∀ m k, m ≠ AppMode.FOCUSED →
        (sceneModeUpdate m k (regeneratePhotos newIds s)).target = none)
    ∧ (∀ m k1 k2, m ≠ AppMode.FOCUSED → newIds ≠ [] →
        ∃ c ∈ newIds,
          (sceneModeUpdate AppMode.FOCUSED k2
            (sceneModeUpdate m k1 (regeneratePhotos newIds s))).target
            = some c) := by
  refine ⟨rfl, rfl, hTarget, ?_, ?_, ?_, ?_⟩
  · intro j hj heq
    rw [show (regeneratePhotos newIds s).target = some i from hTarget] at heq
    obtain rfl := Option.some.injEq .. ▸ heq
    exact hFresh (by simpa using hj)
  · intro ks
    exact sceneHoldFocus ks (regeneratePhotos newIds s) i hTarget
  · intro m k hm
    simp [sceneModeUpdate, focusStep, hm]
  · intro m k1 k2 hm hne
    obtain ⟨p, hp⟩ := List.exists_mem_of_ne_nil newIds hne
    obtain ⟨c, hsel, hcm, -⟩ := focusSelect_progress newIds ∅ k2
      ⟨p, hp, Finset.not_mem_empty p⟩
    refine ⟨c, hcm, ?_⟩
    have h1 : sceneModeUpdate m k1 (regeneratePhotos newIds s)
        = ⟨newIds, ∅, none⟩ := by
      simp [sceneModeUpdate, regeneratePhotos, focusStep, hm]
    rw [h1]
    have h2 := focusStep_select newIds k2 ∅ c (insert c ∅) hsel
    simp [sceneModeUpdate, h2]

/-- C10 witness: photos regenerate from {1} to {7, 8} while id 1 is held:
the stale target survives a FOCUSED update, matches nothing, is cleared on
exit, and the next entry selects from the new pool. -/
theorem photo_regeneration_stale_target_witness :
    (SceneState.target ⟨[1], {1}, some 1⟩ = some 1 ∧ 1 ∉ ([7, 8] : List ℕ))
    ∧ (∀ ks : List ℕ,
        (ks.foldl (fun acc k => sceneModeUpdate AppMode.FOCUSED k acc)
          (regeneratePhotos [7, 8] ⟨[1], {1}, some 1⟩)).target = some 1) :=
  ⟨⟨rfl, by decide⟩,
    (photo_regeneration_stale_target ⟨[1], {1}, some 1⟩ [7, 8] 1 rfl
      (by decide)).2.2.2.2.1⟩
